import Mathlib

/-!
Verification of the palette-quantization and grid-state engine of the
LEGO Art Creator (src/script.js), as a shallow embedding in Lean 4.

Conventions of the embedding:
  * JS strings become `String`, JS `null` cells become `Option String`
    (`none` = empty cell, `some hex` = a placed brick color).
  * The mutable globals `currentColor`, `canvasSize`, `legoGrid`,
    `undoStack`, `isEraserMode` of script.js become the fields of
    `AppState`; every DOM-triggered operation becomes a pure function
    `AppState → AppState` (or `AppState × Bool` when the source can
    throw or reports a distinguishable outcome).
  * JS arrays keep their JS order: `undoStack.push` appends at the end,
    `pop` takes the last element, `shift` removes the first element.
  * `findClosestLegoColor` in the source compares `Math.sqrt` of the
    integer squared distances.  All squared distances here are integers
    bounded by 3 * 255 ^ 2 = 195075; the correctly rounded IEEE double
    square roots of distinct integers in that range are distinct, and
    sqrt is strictly increasing, so the source's `<` comparison of
    square roots coincides with the `<` comparison of the integer
    squared distances used below.
-/

namespace LegoArt

/-- One entry of the LEGO palette: a display name and a hex color code,
mirroring the objects of the `legoColors` array in script.js. -/
structure LegoColor where
  name : String
  hex : String
deriving DecidableEq, Inhabited, Repr

/-- The fixed palette `legoColors` of script.js, in source order. -/
def legoColors : List LegoColor :=
  [ ⟨"Bright Red", "#C91A09"⟩,
    ⟨"Bright Blue", "#0055BF"⟩,
    ⟨"Bright Yellow", "#F2CD37"⟩,
    ⟨"Dark Green", "#287F46"⟩,
    ⟨"Bright Orange", "#FE8A18"⟩,
    ⟨"Medium Lavender", "#AC78BA"⟩,
    ⟨"White", "#F2F3F2"⟩,
    ⟨"Black", "#05131D"⟩,
    ⟨"Dark Tan", "#958A73"⟩,
    ⟨"Medium Blue", "#5A93DB"⟩,
    ⟨"Bright Green", "#4B9F4A"⟩,
    ⟨"Dark Orange", "#A95500"⟩,
    ⟨"Light Purple", "#E4ADC8"⟩,
    ⟨"Sand Blue", "#6074A1"⟩,
    ⟨"Dark Red", "#720E0F"⟩,
    ⟨"Lime", "#BBE90B"⟩,
    ⟨"Medium Azur", "#36AEBF"⟩,
    ⟨"Dark Brown", "#352100"⟩,
    ⟨"Light Bluish Gray", "#A0A5A9"⟩,
    ⟨"Dark Bluish Gray", "#6C6E68"⟩ ]

/-- Value of a single hexadecimal digit, as `parseInt(-, 16)` reads it
(upper or lower case; other characters never occur in palette data). -/
def hexDigitVal (c : Char) : Nat :=
  if '0' ≤ c ∧ c ≤ '9' then c.toNat - Char.toNat '0'
  else if 'a' ≤ c ∧ c ≤ 'f' then c.toNat - Char.toNat 'a' + 10
  else if 'A' ≤ c ∧ c ≤ 'F' then c.toNat - Char.toNat 'A' + 10
  else 0

/-- Two-digit hexadecimal number, e.g. `parseInt("C9", 16) = 201`. -/
def parseHex2 (a b : Char) : Nat :=
  16 * hexDigitVal a + hexDigitVal b

/-- An RGB triple as produced by `hexToRgb` in script.js. -/
structure RGB where
  r : Nat
  g : Nat
  b : Nat
deriving DecidableEq, Repr

/-- `hexToRgb` of script.js: strip the leading number sign, then parse
the three 2-character channel substrings with `parseInt(-, 16)`.  All
palette entries are 7-character strings of this well-formed shape; a
malformed string defaults to zero channels. -/
def hexToRgb (hex : String) : RGB :=
  match hex.data.filter (fun c => c ≠ '#') with
  | [a, b, c, d, e, f] => ⟨parseHex2 a b, parseHex2 c d, parseHex2 e f⟩
  | _ => ⟨0, 0, 0⟩

/-- Integer squared Euclidean RGB distance between an input sample and a
palette entry: the quantity whose square root script.js compares (see
the header note on monotonicity of the square root). -/
def colorDistSq (r g b : Nat) (c : LegoColor) : Int :=
  let lego := hexToRgb c.hex
  ((r : Int) - lego.r) ^ 2 + ((g : Int) - lego.g) ^ 2 + ((b : Int) - lego.b) ^ 2

/-- The `forEach` loop of `findClosestLegoColor`: walk the palette
keeping the current best hex and best distance; `none` models the
initial `Infinity`, against which every distance compares smaller. -/
def closestGo (r g b : Nat) : List LegoColor → String → Option Int → String
  | [], best, _ => best
  | c :: rest, _, none =>
      closestGo r g b rest c.hex (some (colorDistSq r g b c))
  | c :: rest, best, some m =>
      if colorDistSq r g b c < m then
        closestGo r g b rest c.hex (some (colorDistSq r g b c))
      else
        closestGo r g b rest best (some m)

/-- `findClosestLegoColor` of script.js: nearest palette color to the
given RGB sample, first entry winning ties (strict `<` update). -/
def findClosestLegoColor (r g b : Nat) : String :=
  closestGo r g b legoColors legoColors.headI.hex none

/-- A grid cell: `none` is an empty stud, `some hex` a placed brick. -/
abbrev Cell := Option String

/-- The `legoGrid` 2D array: a list of rows of cells. -/
abbrev Grid := List (List Cell)

/-- The mutable global state of script.js that the engine operations
read and write (`referenceImageData` and the DOM are external). -/
structure AppState where
  currentColor : String
  canvasSize : Nat
  legoGrid : Grid
  undoStack : List Grid
  isEraserMode : Bool
deriving DecidableEq, Repr

/-- The stack update of `saveState`: `push` a snapshot at the end, then
`shift` away the oldest (front) entry whenever the length exceeds 20. -/
def pushCapped (st : List Grid) (g : Grid) : List Grid :=
  if (st ++ [g]).length > 20 then (st ++ [g]).tail else st ++ [g]

/-- `saveState` of script.js.  The source pushes the deep copy
`legoGrid.map(row => [...row])`; under value semantics the copy is the
value itself, and non-aliasing becomes the frame theorems below. -/
def saveState (s : AppState) : AppState :=
  { s with undoStack := pushCapped s.undoStack s.legoGrid }

/-- `undo` of script.js.  The returned flag is `true` when a snapshot
was popped and restored, `false` on the `alert('Nothing to undo!')`
early return (the source tests `undoStack.length === 0`, which is
exactly `getLast?` being `none`). -/
def undo (s : AppState) : AppState × Bool :=
  match s.undoStack.getLast? with
  | none => (s, false)
  | some prev =>
      ({ s with legoGrid := prev, undoStack := s.undoStack.dropLast }, true)

/-- JS assignment `rowArr[col] = v`.  In-range indices overwrite; an
index past the end grows the array, the skipped positions becoming
holes, which read back as absent cells and are modelled as `none`. -/
def rowAssign (rowArr : List Cell) (col : Nat) (v : Cell) : List Cell :=
  if col < rowArr.length then rowArr.set col v
  else rowArr ++ List.replicate (col - rowArr.length) none ++ [v]

/-- `placeBrick` of script.js: unconditionally `saveState()`, then
assign `legoGrid[row][col]` to `null` (eraser mode) or `currentColor`.
There is no coordinate validation in the source: when `legoGrid[row]`
is `undefined` (row out of range) the assignment throws a `TypeError`
after the history was already pushed — modelled by the `false` flag
with the partially updated state (the thrown exception aborts nothing
that came before it, since the globals are mutated in place). -/
def placeBrick (row col : Nat) (s : AppState) : AppState × Bool :=
  let s1 := saveState s
  match s1.legoGrid.get? row with
  | none => (s1, false)
  | some rowArr =>
      let v : Cell := if s1.isEraserMode then none else some s1.currentColor
      ({ s1 with legoGrid := s1.legoGrid.set row (rowAssign rowArr col v) }, true)

/-- `initializeCanvas` of script.js: reallocate `legoGrid` as a
`canvasSize × canvasSize` matrix of empties.  The source touches only
`legoGrid` and the DOM — in particular `undoStack` is NOT cleared. -/
def initCanvas (s : AppState) : AppState :=
  { s with legoGrid := List.replicate s.canvasSize (List.replicate s.canvasSize none) }

/-- The confirmed path of the `canvasSize` change handler in
`setupEventListeners`: assign the new size, then `initializeCanvas()`. -/
def changeCanvasSize (n : Nat) (s : AppState) : AppState :=
  initCanvas { s with canvasSize := n }

/-- The confirmed path of `clearCanvas` of script.js: `saveState()`
then `initializeCanvas()`. -/
def clearCanvas (s : AppState) : AppState :=
  initCanvas (saveState s)

/-- `selectColor` of script.js (its DOM highlighting aside): record the
chosen hex as the current color. -/
def selectColor (hex : String) (s : AppState) : AppState :=
  { s with currentColor := hex }

/-- One iteration of the pixel loop of `processImageToLego` at linear
pixel index `i` (the source iterates `row`, `col` with
`pixelIndex = (row * canvasSize + col) * 4`; equivalently a single
loop over `i < canvasSize ^ 2` with `row = i / canvasSize`,
`col = i % canvasSize`).  The `Bool` is the no-exception flag: once an
assignment throws (row of a stale, smaller grid missing) the remaining
iterations do not run. -/
def quantStep (px : Nat → Nat × Nat × Nat) (size : Nat)
    (acc : Grid × Bool) (i : Nat) : Grid × Bool :=
  match acc with
  | (g, false) => (g, false)
  | (g, true) =>
      match g.get? (i / size) with
      | none => (g, false)
      | some rowArr =>
          let p := px i
          (g.set (i / size)
            (rowAssign rowArr (i % size)
              (some (findClosestLegoColor p.1 p.2.1 p.2.2))), true)

/-- `processImageToLego` of script.js: `saveState()`, then overwrite
every cell with the nearest palette color of the corresponding pixel
of the scaled sample buffer.  The scaling of the reference image to a
`canvasSize × canvasSize` buffer is performed externally by the canvas
`drawImage` call; `px i` is the RGB triple that `getImageData` exposes
at pixel index `i` of that buffer (`pixels[4i]`, `pixels[4i+1]`,
`pixels[4i+2]`; the alpha byte is ignored by the source). -/
def processImageToLego (px : Nat → Nat × Nat × Nat) (s : AppState) :
    AppState × Bool :=
  let s1 := saveState s
  let res := (List.range (s1.canvasSize * s1.canvasSize)).foldl
    (quantStep px s1.canvasSize) (s1.legoGrid, true)
  ({ s1 with legoGrid := res.1 }, res.2)

/-- The state right after the `DOMContentLoaded` handler of script.js:
the globals hold their initial literals (`currentColor = '#FF0000'`,
`canvasSize = 32`, empty arrays, eraser off), then `initializeCanvas()`
runs and `selectColor(legoColors[0].hex)` is invoked. -/
def appStart : AppState :=
  selectColor legoColors.headI.hex
    (initCanvas
      { currentColor := "#FF0000", canvasSize := 32, legoGrid := [],
        undoStack := [], isEraserMode := false })

/-- The engine-relevant user operations, each tagged with the data its
DOM event supplies: a swatch click carries a palette index (swatches
are created only from `legoColors` entries), `generate` carries the
externally scaled pixel buffer. -/
inductive Op where
  | swatchClick : Fin legoColors.length → Op
  | toggleEraser : Op
  | place : Nat → Nat → Op
  | undoClick : Op
  | resize : Nat → Op
  | clearClick : Op
  | generate : (Nat → Nat × Nat × Nat) → Op

/-- The transition of each operation, read off the corresponding event
handler of script.js (a swatch click also turns the eraser off). -/
def applyOp (s : AppState) : Op → AppState
  | Op.swatchClick i => { selectColor (legoColors.get i).hex s with isEraserMode := false }
  | Op.toggleEraser => { s with isEraserMode := !s.isEraserMode }
  | Op.place row col => (placeBrick row col s).1
  | Op.undoClick => (undo s).1
  | Op.resize n => changeCanvasSize n s
  | Op.clearClick => clearCanvas s
  | Op.generate px => (processImageToLego px s).1

/-- The hexes of the palette, in order. -/
def paletteHexes : List String := legoColors.map (fun c => c.hex)

/-- A cell is closed when, if filled, its color is a palette hex. -/
def cellClosed (cell : Cell) : Prop :=
  ∀ h, cell = some h → h ∈ paletteHexes

/-- All cells of a row are closed. -/
def rowClosed (rowArr : List Cell) : Prop :=
  ∀ cell ∈ rowArr, cellClosed cell

/-- All rows of a grid are closed: the grid mentions no color outside
the palette. -/
def gridClosed (g : Grid) : Prop :=
  ∀ rowArr ∈ g, rowClosed rowArr

/-- The inductive closure invariant of the whole session state: the
live grid, every stored snapshot, and the current drawing color all
stay inside the palette. -/
def stateClosed (s : AppState) : Prop :=
  gridClosed s.legoGrid ∧ (∀ g ∈ s.undoStack, gridClosed g) ∧
    s.currentColor ∈ paletteHexes

/-- A fresh 5 × 5 document: the size selector is changed to 5 right
after startup, before any edit, so the grid is empty and the history
stack is still empty. -/
def doc5x5 : AppState := changeCanvasSize 5 appStart

/-- `k` sequential cell mutations on the fresh 5 × 5 document, the
`i`-th mutation placing a brick at `(i / 5, i % 5)` — 25 pairwise
distinct cells, so every intermediate grid is distinct. -/
def scenarioPlace (k : Nat) : AppState :=
  (List.range k).foldl (fun st i => (placeBrick (i / 5) (i % 5) st).1) doc5x5

/-- `n` consecutive clicks of the undo button. -/
def undoN : Nat → AppState → AppState
  | 0, s => s
  | n + 1, s => undoN n (undo s).1

/-- The state right after startup followed by one click on the eraser
tool button. -/
def eraserStart : AppState := applyOp appStart Op.toggleEraser

/-! ### Helper lemmas about the history stack -/

/-- The snapshot just pushed is always the most recent entry: the
`shift` on overflow removes from the front, never the freshly pushed
back element. -/
theorem pushCapped_getLast (st : List Grid) (g : Grid) :
    (pushCapped st g).getLast? = some g := by
  unfold pushCapped
  split
  · cases st with
    | nil => simp at *
    | cons a l => simp
  · simp

/-- `pushCapped` keeps a suffix of the old stack (drops at most the one
oldest snapshot) and appends the new snapshot; in particular every
retained old snapshot keeps its exact value. -/
theorem pushCapped_exists_drop (st : List Grid) (g : Grid) :
    ∃ k, k ≤ 1 ∧ pushCapped st g = st.drop k ++ [g] := by
  unfold pushCapped
  split
  · refine ⟨1, le_refl 1, ?_⟩
    cases st with
    | nil => simp at *
    | cons a l => simp
  · exact ⟨0, Nat.zero_le 1, by simp⟩

/-- The capped push never lets the stack grow past 20 snapshots. -/
theorem pushCapped_length_le (st : List Grid) (g : Grid)
    (h : st.length ≤ 20) : (pushCapped st g).length ≤ 20 := by
  unfold pushCapped
  split <;>
    simp only [List.length_tail, List.length_append, List.length_singleton] at * <;>
    omega

/-- Exact length of the stack after a capped push, below capacity the
push adds one, at capacity the eviction keeps the length at 20. -/
theorem pushCapped_length_eq (st : List Grid) (g : Grid)
    (h : st.length ≤ 20) :
    (pushCapped st g).length = min (st.length + 1) 20 := by
  unfold pushCapped
  split
  case isTrue hgt => simp at hgt ⊢; omega
  case isFalse hle => simp at hle ⊢; omega

/-- FIFO eviction at capacity: pushing onto a full stack drops exactly
the oldest snapshot (the head) and appends the new one at the back. -/
theorem pushCapped_full (st : List Grid) (g : Grid)
    (h : st.length = 20) : pushCapped st g = st.tail ++ [g] := by
  unfold pushCapped
  split
  · cases st with
    | nil => simp at h
    | cons a l => simp
  case isFalse hle => simp at hle; omega

/-- `placeBrick` updates the history exactly by the capped push of the
pre-mutation grid, on every path (eraser, place, and even the
out-of-range `TypeError` path, where the push happened first). -/
theorem placeBrick_undoStack (row col : Nat) (s : AppState) :
    (placeBrick row col s).1.undoStack = pushCapped s.undoStack s.legoGrid := by
  unfold placeBrick saveState
  dsimp only
  split <;> rfl

/-- `placeBrick` never changes the other globals. -/
theorem placeBrick_frame (row col : Nat) (s : AppState) :
    (placeBrick row col s).1.currentColor = s.currentColor ∧
    (placeBrick row col s).1.canvasSize = s.canvasSize ∧
    (placeBrick row col s).1.isEraserMode = s.isEraserMode := by
  unfold placeBrick saveState
  dsimp only
  split <;> exact ⟨rfl, rfl, rfl⟩

/-- `processImageToLego` updates the history exactly by the capped
push of the pre-mutation grid. -/
theorem processImageToLego_undoStack (px : Nat → Nat × Nat × Nat)
    (s : AppState) :
    (processImageToLego px s).1.undoStack = pushCapped s.undoStack s.legoGrid := rfl

/-- `undo` on a stack that just received snapshot `g` restores `g` and
reports success. -/
theorem undo_of_pushCapped (s : AppState) (st : List Grid) (g : Grid)
    (h : s.undoStack = pushCapped st g) :
    (undo s).1.legoGrid = g ∧ (undo s).2 = true := by
  unfold undo
  rw [h, pushCapped_getLast]
  exact ⟨rfl, rfl⟩

/-- No single operation can push the history past 20 snapshots. -/
theorem applyOp_stack_le (s : AppState) (op : Op)
    (h : s.undoStack.length ≤ 20) :
    (applyOp s op).undoStack.length ≤ 20 := by
  cases op with
  | swatchClick i => exact h
  | toggleEraser => exact h
  | place row col =>
    have := placeBrick_undoStack row col s
    unfold applyOp
    rw [this]
    exact pushCapped_length_le _ _ h
  | undoClick =>
    unfold applyOp undo
    dsimp only
    split
    · exact h
    · simp only [List.length_dropLast]
      omega
  | resize n => exact h
  | clearClick => exact pushCapped_length_le _ _ h
  | generate px => exact pushCapped_length_le _ _ h

/-- Setting a list entry to the value it already holds is a no-op. -/
theorem set_get?_self {α : Type} (l : List α) (i : Nat) (a : α)
    (h : l.get? i = some a) : l.set i a = l := by
  induction l generalizing i with
  | nil => cases h
  | cons x xs ih =>
    cases i with
    | zero =>
      simp only [List.get?] at h
      cases h
      rfl
    | succ j =>
      simp only [List.get?] at h
      simp only [List.set]
      rw [ih j h]

/-! ### The nearest-color loop invariant -/

/-- Invariant of the scan of `closestGo` once a finite best distance is
installed: either no later entry strictly improves and the incumbent
survives, or the result is the first entry attaining the minimum of
the remaining distances, that minimum beating the incumbent. -/
theorem closestGo_some_spec (r g b : Nat) (l : List LegoColor)
    (best : String) (m : Int) :
    (closestGo r g b l best (some m) = best ∧
      ∀ c ∈ l, m ≤ colorDistSq r g b c) ∨
    (∃ l1 c l2, l = l1 ++ c :: l2 ∧
      closestGo r g b l best (some m) = c.hex ∧
      colorDistSq r g b c < m ∧
      (∀ x ∈ l, colorDistSq r g b c ≤ colorDistSq r g b x) ∧
      (∀ x ∈ l1, colorDistSq r g b c < colorDistSq r g b x)) := by
  induction l generalizing best m with
  | nil => exact Or.inl ⟨rfl, by simp⟩
  | cons c rest ih =>
    by_cases hlt : colorDistSq r g b c < m
    · have hstep : closestGo r g b (c :: rest) best (some m) =
          closestGo r g b rest c.hex (some (colorDistSq r g b c)) := by
        simp [closestGo, hlt]
      rcases ih c.hex (colorDistSq r g b c) with ⟨heq, hall⟩ | ⟨r1, c', r2, hsplit, heq, hbetter, hmin, hfirst⟩
      · refine Or.inr ⟨[], c, rest, by simp, by rw [hstep, heq], hlt, ?_, by simp⟩
        intro x hx
        rcases List.mem_cons.mp hx with hx | hx
        · exact le_of_eq (by rw [hx])
        · exact hall x hx
      · refine Or.inr ⟨c :: r1, c', r2, by rw [hsplit]; rfl, by rw [hstep, heq],
          lt_trans hbetter hlt, ?_, ?_⟩
        · intro x hx
          rcases List.mem_cons.mp hx with hx | hx
          · exact le_of_lt (by rw [hx]; exact hbetter)
          · exact hmin x (hsplit ▸ hx)
        · intro x hx
          rcases List.mem_cons.mp hx with hx | hx
          · rw [hx]; exact hbetter
          · exact hfirst x hx
    · have hge : m ≤ colorDistSq r g b c := not_lt.mp hlt
      have hstep : closestGo r g b (c :: rest) best (some m) =
          closestGo r g b rest best (some m) := by
        simp [closestGo, hlt]
      rcases ih best m with ⟨heq, hall⟩ | ⟨r1, c', r2, hsplit, heq, hbetter, hmin, hfirst⟩
      · refine Or.inl ⟨by rw [hstep, heq], ?_⟩
        intro x hx
        rcases List.mem_cons.mp hx with hx | hx
        · exact hx ▸ hge
        · exact hall x hx
      · refine Or.inr ⟨c :: r1, c', r2, by rw [hsplit]; rfl, by rw [hstep, heq],
          hbetter, ?_, ?_⟩
        · intro x hx
          rcases List.mem_cons.mp hx with hx | hx
          · exact le_of_lt (hx ▸ lt_of_lt_of_le hbetter hge)
          · exact hmin x (hsplit ▸ hx)
        · intro x hx
          rcases List.mem_cons.mp hx with hx | hx
          · exact hx ▸ lt_of_lt_of_le hbetter hge
          · exact hfirst x hx

/-- `findClosestLegoColor` returns the hex of the first palette entry
attaining the minimal squared distance, for every input sample. -/
theorem findClosest_first_argmin (r g b : Nat) :
    ∃ l1 c l2, legoColors = l1 ++ c :: l2 ∧
      findClosestLegoColor r g b = c.hex ∧
      (∀ x ∈ legoColors, colorDistSq r g b c ≤ colorDistSq r g b x) ∧
      (∀ x ∈ l1, colorDistSq r g b c < colorDistSq r g b x) := by
  obtain ⟨c0, rest, hE⟩ : ∃ c0 rest, legoColors = c0 :: rest := ⟨_, _, rfl⟩
  have hstart : findClosestLegoColor r g b =
      closestGo r g b rest c0.hex (some (colorDistSq r g b c0)) := by
    unfold findClosestLegoColor
    rw [hE]
    rfl
  rcases closestGo_some_spec r g b rest c0.hex (colorDistSq r g b c0) with
    ⟨heq, hall⟩ | ⟨r1, c', r2, hsplit, heq, hbetter, hmin, hfirst⟩
  · refine ⟨[], c0, rest, by rw [hE]; rfl, by rw [hstart, heq], ?_, by simp⟩
    intro x hx
    rw [hE] at hx
    rcases List.mem_cons.mp hx with hx | hx
    · exact le_of_eq (by rw [hx])
    · exact hall x hx
  · refine ⟨c0 :: r1, c', r2, by rw [hE, hsplit]; rfl, by rw [hstart, heq], ?_, ?_⟩
    · intro x hx
      rw [hE] at hx
      rcases List.mem_cons.mp hx with hx | hx
      · exact le_of_lt (hx ▸ hbetter)
      · exact hmin x (hsplit ▸ hx)
    · intro x hx
      rcases List.mem_cons.mp hx with hx | hx
      · exact hx ▸ hbetter
      · exact hfirst x hx

/-- Whatever the input sample, the looked-up color is one of the
palette hexes. -/
theorem findClosest_mem_palette (r g b : Nat) :
    findClosestLegoColor r g b ∈ paletteHexes := by
  obtain ⟨l1, c, l2, hsplit, heq, -, -⟩ := findClosest_first_argmin r g b
  rw [heq]
  have hc : c ∈ legoColors := by rw [hsplit]; simp
  exact List.mem_map_of_mem (fun x : LegoColor => x.hex) hc

/-! ### Palette closure -/

theorem cellClosed_none : cellClosed none := by
  intro h hcontr
  cases hcontr

theorem cellClosed_some {hex : String} (h : hex ∈ paletteHexes) :
    cellClosed (some hex) := by
  intro h' heq
  cases heq
  exact h

/-- Assignment into a closed row with a closed value stays closed,
including the hole-extension path. -/
theorem rowClosed_rowAssign {rowArr : List Cell} {v : Cell} (col : Nat)
    (hrow : rowClosed rowArr) (hv : cellClosed v) :
    rowClosed (rowAssign rowArr col v) := by
  unfold rowAssign
  split
  · intro cell hcell
    rcases List.mem_or_eq_of_mem_set hcell with hmem | hrfl
    · exact hrow cell hmem
    · exact hrfl ▸ hv
  · intro cell hcell
    rcases List.mem_append.mp hcell with hcell | hcell
    · rcases List.mem_append.mp hcell with hcell | hcell
      · exact hrow cell hcell
      · exact (List.eq_of_mem_replicate hcell) ▸ cellClosed_none
    · rcases List.mem_singleton.mp hcell with rfl
      exact hv

/-- Replacing one row of a closed grid by a closed row stays closed. -/
theorem gridClosed_set {g : Grid} {rowArr : List Cell} (row : Nat)
    (hg : gridClosed g) (hrow : rowClosed rowArr) :
    gridClosed (g.set row rowArr) := by
  intro r hr
  rcases List.mem_or_eq_of_mem_set hr with hmem | hrfl
  · exact hg r hmem
  · exact hrfl ▸ hrow

/-- The freshly allocated all-empty grid is closed. -/
theorem gridClosed_replicate (n m : Nat) :
    gridClosed (List.replicate n (List.replicate m (none : Cell))) := by
  intro r hr
  rw [List.eq_of_mem_replicate hr]
  intro cell hcell
  rw [List.eq_of_mem_replicate hcell]
  exact cellClosed_none

/-- Every snapshot surviving a capped push is either an old snapshot
or the pushed grid. -/
theorem mem_pushCapped {st : List Grid} {g h : Grid}
    (hmem : h ∈ pushCapped st g) : h ∈ st ∨ h = g := by
  unfold pushCapped at hmem
  split at hmem
  · rcases List.mem_append.mp (List.tail_subset _ hmem) with hx | hx
    · exact Or.inl hx
    · exact Or.inr (List.mem_singleton.mp hx)
  · rcases List.mem_append.mp hmem with hx | hx
    · exact Or.inl hx
    · exact Or.inr (List.mem_singleton.mp hx)

/-- The quantization loop writes only nearest-palette colors, so it
preserves grid closure whatever the pixel buffer holds. -/
theorem quantFold_closed (px : Nat → Nat × Nat × Nat) (size : Nat)
    (l : List Nat) (acc : Grid × Bool) (hacc : gridClosed acc.1) :
    gridClosed ((l.foldl (quantStep px size) acc).1) := by
  induction l generalizing acc with
  | nil => exact hacc
  | cons i rest ih =>
    refine ih (quantStep px size acc i) ?_
    obtain ⟨g, ok⟩ := acc
    cases ok with
    | false => exact hacc
    | true =>
      unfold quantStep
      dsimp only
      split
      · exact hacc
      case h_2 rowArr hget =>
        refine gridClosed_set _ hacc ?_
        refine rowClosed_rowAssign _ (hacc rowArr (List.get?_mem hget)) ?_
        exact cellClosed_some (findClosest_mem_palette _ _ _)

/-- Every operation of the session preserves the closure invariant. -/
theorem applyOp_closed (s : AppState) (op : Op) (hs : stateClosed s) :
    stateClosed (applyOp s op) := by
  obtain ⟨hgrid, hstack, hcolor⟩ := hs
  cases op with
  | swatchClick i =>
    refine ⟨hgrid, hstack, ?_⟩
    exact List.mem_map_of_mem (fun c : LegoColor => c.hex) (legoColors.get_mem i.1 i.2)
  | toggleEraser => exact ⟨hgrid, hstack, hcolor⟩
  | place row col =>
    have hstack' : ∀ g ∈ pushCapped s.undoStack s.legoGrid, gridClosed g := by
      intro g hg
      rcases mem_pushCapped hg with hg | hg
      · exact hstack g hg
      · exact hg ▸ hgrid
    unfold applyOp placeBrick saveState
    dsimp only
    split
    · exact ⟨hgrid, hstack', hcolor⟩
    case h_2 rowArr hget =>
      refine ⟨?_, hstack', hcolor⟩
      refine gridClosed_set _ hgrid ?_
      refine rowClosed_rowAssign _ (hgrid rowArr (List.get?_mem hget)) ?_
      split
      · exact cellClosed_none
      · exact cellClosed_some hcolor
  | undoClick =>
    unfold applyOp undo
    dsimp only
    split
    · exact ⟨hgrid, hstack, hcolor⟩
    case h_2 prev hlast =>
      refine ⟨hstack prev (List.mem_of_mem_getLast? hlast), ?_, hcolor⟩
      intro g hg
      exact hstack g (List.dropLast_subset _ hg)
  | resize n =>
    exact ⟨gridClosed_replicate _ _, hstack, hcolor⟩
  | clearClick =>
    refine ⟨gridClosed_replicate _ _, ?_, hcolor⟩
    intro g hg
    rcases mem_pushCapped hg with hg | hg
    · exact hstack g hg
    · exact hg ▸ hgrid
  | generate px =>
    refine ⟨?_, ?_, hcolor⟩
    · exact quantFold_closed px s.canvasSize _ (s.legoGrid, true) hgrid
    · intro g hg
      rcases mem_pushCapped hg with hg | hg
      · exact hstack g hg
      · exact hg ▸ hgrid

/-- The post-initialization state is closed. -/
theorem appStart_closed : stateClosed appStart := by
  refine ⟨?_, ?_, ?_⟩
  · exact gridClosed_replicate 32 32
  · intro g hg
    cases hg
  · decide

/-! ### The claims -/

/-- Claim C1: for every RGB input with each channel in 0–255,
`findClosestLegoColor` returns the hex value of the palette entry
whose squared Euclidean distance to the input is minimal over all of
`legoColors`, and when several entries attain the minimum it returns
the one appearing first in palette iteration order. -/
theorem C1_nearest_color (r g b : Nat)
    (_hr : r ≤ 255) (_hg : g ≤ 255) (_hb : b ≤ 255) :
    ∃ l1 c l2, legoColors = l1 ++ c :: l2 ∧
      findClosestLegoColor r g b = c.hex ∧
      (∀ x ∈ legoColors, colorDistSq r g b c ≤ colorDistSq r g b x) ∧
      (∀ x ∈ l1, colorDistSq r g b c < colorDistSq r g b x) :=
  findClosest_first_argmin r g b

/-- Witness for C1 at the sample (10, 10, 10). -/
theorem C1_witness :
    (10 ≤ 255 ∧ 10 ≤ 255 ∧ 10 ≤ 255) ∧
    (∃ l1 c l2, legoColors = l1 ++ c :: l2 ∧
      findClosestLegoColor 10 10 10 = c.hex ∧
      (∀ x ∈ legoColors, colorDistSq 10 10 10 c ≤ colorDistSq 10 10 10 x) ∧
      (∀ x ∈ l1, colorDistSq 10 10 10 c < colorDistSq 10 10 10 x)) :=
  ⟨⟨by decide, by decide, by decide⟩,
    C1_nearest_color 10 10 10 (by decide) (by decide) (by decide)⟩

set_option maxRecDepth 100000 in
/-- Claim C3: no operation lets the history exceed 20 snapshots; at
capacity the oldest snapshot is evicted FIFO; and concretely, 25
sequential cell mutations on a fresh document leave exactly 20
snapshots, after which 20 consecutive undos restore the grid to its
state immediately after the 5th mutation. -/
theorem C3_history_bound :
    (∀ s op, s.undoStack.length ≤ 20 →
      (applyOp s op).undoStack.length ≤ 20) ∧
    (∀ s : AppState, s.undoStack.length = 20 →
      (saveState s).undoStack = s.undoStack.tail ++ [s.legoGrid]) ∧
    (scenarioPlace 25).undoStack.length = 20 ∧
    (undoN 20 (scenarioPlace 25)).legoGrid = (scenarioPlace 5).legoGrid := by
  refine ⟨applyOp_stack_le, ?_, by decide, by decide⟩
  intro s h
  unfold saveState
  dsimp only
  exact pushCapped_full _ _ h

/-- Witness for C3's universally quantified parts at a concrete state
and operation. -/
theorem C3_witness :
    (appStart.undoStack.length ≤ 20 ∧
      (applyOp appStart (Op.place 0 0)).undoStack.length ≤ 20) ∧
    ((placeBrick 0 0 (scenarioPlace 20)).1.undoStack.length ≤ 20) :=
  ⟨⟨by decide, C3_history_bound.1 appStart (Op.place 0 0) (by decide)⟩,
    by decide⟩

/-- Counterexample to claim C4: one brick is placed after startup, then
the canvas size is changed to 16.  The claim demands an empty history
stack after the resize; the code keeps the snapshot pushed by the
mutation, because `initializeCanvas` never touches `undoStack`. -/
theorem C4_cex :
    (changeCanvasSize 16 ((placeBrick 0 0 appStart).1)).undoStack ≠ [] := by
  decide

/-- Claim C4 as amended: changing the grid size yields an all-empty
grid of the new dimension but leaves the undo history exactly as it
was — the history is not cleared. -/
theorem C4_amended (s : AppState) (n : Nat) :
    (changeCanvasSize n s).legoGrid =
      List.replicate n (List.replicate n (none : Cell)) ∧
    (changeCanvasSize n s).undoStack = s.undoStack :=
  ⟨rfl, rfl⟩

/-- Claim C5: after any sequence of operations from startup, every
filled cell of the grid holds a color present in `legoColors`; the
grid never contains a color absent from the palette. -/
theorem C5_palette_closure (ops : List Op) :
    gridClosed ((ops.foldl applyOp appStart).legoGrid) := by
  suffices h : ∀ s, stateClosed s → stateClosed (ops.foldl applyOp s) from
    (h appStart appStart_closed).1
  induction ops with
  | nil => exact fun s hs => hs
  | cons op rest ih =>
    intro s hs
    exact ih (applyOp s op) (applyOp_closed s op hs)

/-- Claim C6: both mutating operations (`placeBrick` and
`processImageToLego`) first push the pre-mutation grid, so one `undo`
immediately afterwards restores the live grid exactly to its
pre-mutation value, on every input. -/
theorem C6_mutation_roundtrip (s : AppState) (row col : Nat)
    (px : Nat → Nat × Nat × Nat) :
    (undo (placeBrick row col s).1).1.legoGrid = s.legoGrid ∧
    (undo (placeBrick row col s).1).2 = true ∧
    (undo (processImageToLego px s).1).1.legoGrid = s.legoGrid ∧
    (undo (processImageToLego px s).1).2 = true := by
  obtain ⟨h1, h2⟩ := undo_of_pushCapped _ _ _ (placeBrick_undoStack row col s)
  obtain ⟨h3, h4⟩ := undo_of_pushCapped _ _ _ (processImageToLego_undoStack px s)
  exact ⟨h1, h2, h3, h4⟩

/-- Counterexample to claim C7: calling the cell mutation at the
out-of-range row 32 of the default 32 × 32 grid is claimed to leave
the history unmodified; in the code `saveState()` runs before any
index is inspected, so the history has grown when the assignment
`legoGrid[32][0]` then throws. -/
theorem C7_cex :
    ¬((placeBrick 32 0 appStart).1.undoStack = appStart.undoStack) := by
  decide

/-- Claim C7 as amended: `placeBrick` performs no coordinate
validation.  It always pushes a history snapshot first; when the row
exists the target cell is assigned (the eraser clearing it, otherwise
the current color, a column past the row end extending the row); when
the row does not exist the assignment throws, after the history was
already modified, leaving the grid unchanged. -/
theorem C7_amended (s : AppState) (row col : Nat) :
    (placeBrick row col s).1.undoStack = pushCapped s.undoStack s.legoGrid ∧
    ((placeBrick row col s).2 = false ↔ s.legoGrid.get? row = none) ∧
    (placeBrick row col s).1.legoGrid =
      (match s.legoGrid.get? row with
       | none => s.legoGrid
       | some rowArr => s.legoGrid.set row (rowAssign rowArr col
           (if s.isEraserMode then none else some s.currentColor))) := by
  refine ⟨placeBrick_undoStack row col s, ?_, ?_⟩ <;>
  · unfold placeBrick saveState
    dsimp only
    cases hget : s.legoGrid.get? row <;> simp [hget]

/-- Claim C8: after a mutating operation stores its snapshot, every
snapshot already in the history that survives the capacity eviction
keeps exactly its former value — the new stack is a suffix of the old
stack (at most the oldest entry dropped) plus the new snapshot. -/
theorem C8_snapshot_frame (s : AppState) (row col : Nat)
    (px : Nat → Nat × Nat × Nat) :
    (∃ k, k ≤ 1 ∧ (placeBrick row col s).1.undoStack =
      s.undoStack.drop k ++ [s.legoGrid]) ∧
    (∃ k, k ≤ 1 ∧ (processImageToLego px s).1.undoStack =
      s.undoStack.drop k ++ [s.legoGrid]) := by
  constructor
  · rw [placeBrick_undoStack]
    exact pushCapped_exists_drop _ _
  · rw [processImageToLego_undoStack]
    exact pushCapped_exists_drop _ _

/-- Claim C9: `undo` on an empty history is a no-op reported by the
distinguishable "nothing to undo" outcome (the `false` flag, the
source's alert path): the state, grid and history included, is
returned unchanged. -/
theorem C9_undo_empty (s : AppState) (h : s.undoStack = []) :
    undo s = (s, false) := by
  unfold undo
  rw [h]
  rfl

/-- Witness for C9 on the freshly initialized document. -/
theorem C9_witness :
    appStart.undoStack = [] ∧ undo appStart = (appStart, false) :=
  ⟨rfl, C9_undo_empty appStart rfl⟩

/-- Claim C10: `placeBrick` pushes a history snapshot even when the
operation does not change the grid: erasing an in-bounds cell that is
already empty leaves the grid unchanged, still grows the history by
one (subject to the 20-entry cap), and a subsequent `undo` restores a
grid identical to the current one. -/
theorem C10_noop_edit (s : AppState) (row col : Nat)
    (he : s.isEraserMode = true)
    (hc : (s.legoGrid.get? row).bind (fun rowArr => rowArr.get? col) = some none)
    (hlen : s.undoStack.length ≤ 20) :
    (placeBrick row col s).1.legoGrid = s.legoGrid ∧
    (placeBrick row col s).1.undoStack.length = min (s.undoStack.length + 1) 20 ∧
    (undo (placeBrick row col s).1).1.legoGrid =
      (placeBrick row col s).1.legoGrid := by
  obtain ⟨rowArr, hrow, hcell⟩ := Option.bind_eq_some.mp hc
  obtain ⟨hcol, -⟩ := List.get?_eq_some.mp hcell
  have hgrid : (placeBrick row col s).1.legoGrid = s.legoGrid := by
    unfold placeBrick saveState
    dsimp only
    rw [hrow]
    dsimp only
    rw [he]
    unfold rowAssign
    rw [if_pos hcol, if_pos rfl, set_get?_self rowArr col none hcell,
      set_get?_self s.legoGrid row rowArr hrow]
  refine ⟨hgrid, ?_, ?_⟩
  · rw [placeBrick_undoStack]
    exact pushCapped_length_eq _ _ hlen
  · rw [hgrid]
    exact (undo_of_pushCapped _ _ _ (placeBrick_undoStack row col s)).1

/-- Witness for C10 with the eraser active on the empty startup
grid at cell (0, 0). -/
theorem C10_witness :
    (eraserStart.isEraserMode = true ∧
      (eraserStart.legoGrid.get? 0).bind (fun rowArr => rowArr.get? 0) = some none ∧
      eraserStart.undoStack.length ≤ 20) ∧
    ((placeBrick 0 0 eraserStart).1.legoGrid = eraserStart.legoGrid ∧
      (placeBrick 0 0 eraserStart).1.undoStack.length =
        min (eraserStart.undoStack.length + 1) 20 ∧
      (undo (placeBrick 0 0 eraserStart).1).1.legoGrid =
        (placeBrick 0 0 eraserStart).1.legoGrid) :=
  ⟨⟨by decide, by decide, by decide⟩,
    C10_noop_edit eraserStart 0 0 (by decide) (by decide) (by decide)⟩

end LegoArt
